import Mathlib

/-!
Verification of the custom feature discovery engine
(`source/custom/custom.go` of node-feature-discovery).

Shallow embedding: a rule (external capability) is represented by the
outcome its `Match()` call would produce, a pair `(matched : Bool,
err : Option E)` mirroring Go's `(bool, error)` return.  A rule slot of a
`MatchRule` is either absent (`none`, Go nil pointer) or holds such an
outcome.  The error type `E` is kept abstract, mirroring Go's opaque
`error` interface.
-/

section Defs

variable {E : Type}

/-- Outcome of a single rule's `Match()` call: `(matched, err)`. -/
abbrev RuleOutcome (E : Type) := Bool × Option E

/-- One rule-set: the six optional rule slots of Go struct `MatchRule`
(`PciID`, `UsbID`, `LoadedKMod`, `CpuID`, `Kconfig`, `Nodename`), each
either absent (nil pointer) or carrying its evaluation outcome. -/
structure MatchRule (E : Type) where
  PciID      : Option (RuleOutcome E)
  UsbID      : Option (RuleOutcome E)
  LoadedKMod : Option (RuleOutcome E)
  CpuID      : Option (RuleOutcome E)
  Kconfig    : Option (RuleOutcome E)
  Nodename   : Option (RuleOutcome E)
deriving DecidableEq

/-- Go struct `FeatureSpec`: a name, an optional literal value, and the
ordered `matchOn` sequence of rule-sets. -/
structure FeatureSpec (E : Type) where
  Name    : String
  Value   : Option String
  MatchOn : List (MatchRule E)
deriving DecidableEq

/-- The `allRules` slice built inside `discoverFeature`: the six slots in
the source's fixed order. -/
def allRules (m : MatchRule E) : List (Option (RuleOutcome E)) :=
  [m.PciID, m.UsbID, m.LoadedKMod, m.CpuID, m.Kconfig, m.Nodename]

/-- The `matchRules` closure of `discoverFeature`: walks the slice, skips
nil slots (`reflect.ValueOf(rule).IsNil()`), returns `(false, err)` on the
first erroring rule, `(false, nil)` on the first non-matching rule, and
`(true, nil)` when every present rule matched. -/
def matchRules : List (Option (RuleOutcome E)) → Bool × Option E
  | [] => (true, none)
  | none :: rest => matchRules rest
  | some (_, some e) :: _ => (false, some e)
  | some (true, none) :: rest => matchRules rest
  | some (false, none) :: _ => (false, none)

/-- The loop body of `Source.discoverFeature` over the `matchOn` list:
per rule-set, an error aborts with `(false, err)`, a full match returns
`(true, nil)`, otherwise the next rule-set is tried; an exhausted list
yields `(false, nil)`. -/
def discoverLoop : List (MatchRule E) → Bool × Option E
  | [] => (false, none)
  | mr :: rest =>
    match matchRules (allRules mr) with
    | (_, some e) => (false, some e)
    | (true, none) => (true, none)
    | (false, none) => discoverLoop rest

/-- Go `Source.discoverFeature`: evaluate one feature specification. -/
def discoverFeature (f : FeatureSpec E) : Bool × Option E :=
  discoverLoop f.MatchOn

/-- A value stored in the feature map: Go assigns `interface{}` values
that are either the literal string or boolean `true`. -/
inductive FeatureValue where
  | boolVal : Bool → FeatureValue
  | strVal : String → FeatureValue
deriving DecidableEq

/-- Go `source.Features`: map from feature name to value, modelled as a
lookup function. -/
def Features := String → Option FeatureValue

/-- The empty map `source.Features{}`. -/
def emptyFeatures : Features := fun _ => none

/-- Map update `features[name] = value`. -/
def setFeature (m : Features) (k : String) (v : FeatureValue) : Features :=
  fun x => if x = k then some v else m x

/-- The value a matching specification contributes:
`var value interface{} = true; if customFeature.Value != nil { value = *customFeature.Value }`. -/
def specValue (f : FeatureSpec E) : FeatureValue :=
  match f.Value with
  | some s => FeatureValue.strVal s
  | none => FeatureValue.boolVal true

/-- One iteration of the `Discover` loop: on error, log and continue
(map unchanged); on a match, insert the value; otherwise map unchanged. -/
def discoverStep (m : Features) (f : FeatureSpec E) : Features :=
  match discoverFeature f with
  | (_, some _) => m
  | (true, none) => setFeature m f.Name (specValue f)
  | (false, none) => m

/-- The `Discover` loop over the merged configuration list. -/
def discoverAll (m : Features) : List (FeatureSpec E) → Features
  | [] => m
  | f :: rest => discoverAll (discoverStep m f) rest

/-- The merged configuration built by `Discover`:
`append(append(getStaticFeatureConfig(), *s.config...), getDirectoryFeatureConfig()...)`.
The static and directory lists come from excluded configuration-loading
collaborators, so they are parameters here. -/
def mergedConfig (staticCfg userCfg dirCfg : List (FeatureSpec E)) :
    List (FeatureSpec E) :=
  (staticCfg ++ userCfg) ++ dirCfg

/-- Go `Source.Discover`: build the feature map over the merged
configuration and return it with a nil error. -/
def Discover (staticCfg userCfg dirCfg : List (FeatureSpec E)) :
    Features × Option E :=
  (discoverAll emptyFeatures (mergedConfig staticCfg userCfg dirCfg), none)

/-! Instrumented variants: identical control flow, but additionally
recording which rule slots are actually invoked (their `Match()` called),
in invocation order.  Used to state the short-circuit / never-evaluated
properties observably. -/

/-- Names of the six rule slots, in the source's fixed slice order. -/
inductive SlotName where
  | pciID
  | usbID
  | loadedKMod
  | cpuID
  | kconfig
  | nodename
deriving DecidableEq

/-- The six slots of a rule-set tagged with their slot names, in the
order of the `allRules` slice. -/
def namedRules (m : MatchRule E) : List (SlotName × Option (RuleOutcome E)) :=
  [(SlotName.pciID, m.PciID), (SlotName.usbID, m.UsbID),
   (SlotName.loadedKMod, m.LoadedKMod), (SlotName.cpuID, m.CpuID),
   (SlotName.kconfig, m.Kconfig), (SlotName.nodename, m.Nodename)]

/-- Instrumented `matchRules`: same result as `matchRules`, plus the list
of slots whose rule was invoked, in order. -/
def matchRulesT : List (SlotName × Option (RuleOutcome E)) →
    (Bool × Option E) × List SlotName
  | [] => ((true, none), [])
  | (_, none) :: rest => matchRulesT rest
  | (nm, some (_, some e)) :: _ => ((false, some e), [nm])
  | (nm, some (true, none)) :: rest =>
      ((matchRulesT rest).1, nm :: (matchRulesT rest).2)
  | (nm, some (false, none)) :: _ => ((false, none), [nm])

/-- Instrumented `discoverFeature` loop: trace entries are
(rule-set index in `matchOn`, slot name). -/
def discoverLoopT (i : Nat) : List (MatchRule E) →
    (Bool × Option E) × List (Nat × SlotName)
  | [] => ((false, none), [])
  | mr :: rest =>
    match (matchRulesT (namedRules mr)).1 with
    | (_, some e) =>
        ((false, some e), (matchRulesT (namedRules mr)).2.map (fun nm => (i, nm)))
    | (true, none) =>
        ((true, none), (matchRulesT (namedRules mr)).2.map (fun nm => (i, nm)))
    | (false, none) =>
        ((discoverLoopT (i + 1) rest).1,
         (matchRulesT (namedRules mr)).2.map (fun nm => (i, nm))
           ++ (discoverLoopT (i + 1) rest).2)

/-- Instrumented `discoverFeature`. -/
def discoverFeatureT (f : FeatureSpec E) :
    (Bool × Option E) × List (Nat × SlotName) :=
  discoverLoopT 0 f.MatchOn

/-- Names of the present (non-nil) slots of a tagged slot list, in order. -/
def presentNames (l : List (SlotName × Option (RuleOutcome E))) : List SlotName :=
  l.filterMap (fun p => match p.2 with | none => none | some _ => some p.1)

end Defs

section Lemmas

variable {E : Type}

/-- The tagged slot list projects to the `allRules` slice. -/
lemma namedRules_map_snd (m : MatchRule E) :
    (namedRules m).map Prod.snd = allRules m := rfl

/-- The instrumentation does not change the result of `matchRules`. -/
lemma matchRulesT_fst (rs : List (SlotName × Option (RuleOutcome E))) :
    (matchRulesT rs).1 = matchRules (rs.map Prod.snd) := by
  induction rs with
  | nil => rfl
  | cons hd tl ih =>
    obtain ⟨nm, o⟩ := hd
    match o with
    | none => simpa [matchRulesT, matchRules] using ih
    | some (b, some e) => simp [matchRulesT, matchRules]
    | some (true, none) => simpa [matchRulesT, matchRules] using ih
    | some (false, none) => simp [matchRulesT, matchRules]

/-- The instrumentation does not change the result of the feature loop. -/
lemma discoverLoopT_fst (i : Nat) (l : List (MatchRule E)) :
    (discoverLoopT i l).1 = discoverLoop l := by
  induction l generalizing i with
  | nil => rfl
  | cons mr rest ih =>
    have hm : (matchRulesT (namedRules mr)).1 = matchRules (allRules mr) :=
      (matchRulesT_fst (namedRules mr)).trans (by rw [namedRules_map_snd])
    cases hr : matchRules (allRules mr) with
    | mk b oe =>
      match b, oe with
      | b, some e => simp [discoverLoopT, discoverLoop, hm, hr]
      | true, none => simp [discoverLoopT, discoverLoop, hm, hr]
      | false, none => simp [discoverLoopT, discoverLoop, hm, hr, ih]

/-- Rule-sets that evaluate to a clean non-match are skipped: the loop
result over `pre ++ l` equals the result over `l`. -/
lemma discoverLoop_skip (pre l : List (MatchRule E))
    (hpre : ∀ r ∈ pre, matchRules (allRules r) = (false, none)) :
    discoverLoop (pre ++ l) = discoverLoop l := by
  induction pre with
  | nil => rfl
  | cons mr rest ih =>
    have h0 : matchRules (allRules mr) = (false, none) :=
      hpre mr (List.mem_cons_self mr rest)
    have ih0 := ih (fun r hr => hpre r (List.mem_cons_of_mem mr hr))
    simp [discoverLoop, h0, ih0]

/-- When the first not-skipped rule-set is decisive (errors or fully
matches), every invoked slot lies in a rule-set of index at most
`i + pre.length`. -/
lemma discoverLoopT_trace_bound (i : Nat) (pre : List (MatchRule E))
    (RS : MatchRule E) (rest : List (MatchRule E))
    (hpre : ∀ r ∈ pre, matchRules (allRules r) = (false, none))
    (hRS : matchRules (allRules RS) ≠ (false, none)) :
    ∀ p ∈ (discoverLoopT i (pre ++ RS :: rest)).2, p.1 ≤ i + pre.length := by
  induction pre generalizing i with
  | nil =>
    intro p hp
    have hm : (matchRulesT (namedRules RS)).1 = matchRules (allRules RS) :=
      (matchRulesT_fst (namedRules RS)).trans (by rw [namedRules_map_snd])
    cases hr : matchRules (allRules RS) with
    | mk b oe =>
      match b, oe with
      | b, some e =>
        simp only [List.nil_append, discoverLoopT, hm, hr] at hp
        obtain ⟨nm, _, hmem⟩ := List.mem_map.mp hp
        simp [← hmem]
      | true, none =>
        simp only [List.nil_append, discoverLoopT, hm, hr] at hp
        obtain ⟨nm, _, hmem⟩ := List.mem_map.mp hp
        simp [← hmem]
      | false, none => exact absurd hr hRS
  | cons mr pre ih =>
    intro p hp
    have hm : (matchRulesT (namedRules mr)).1 = matchRules (allRules mr) :=
      (matchRulesT_fst (namedRules mr)).trans (by rw [namedRules_map_snd])
    have h0 : matchRules (allRules mr) = (false, none) :=
      hpre mr (List.mem_cons_self mr pre)
    simp only [List.cons_append, discoverLoopT, hm, h0, List.mem_append] at hp
    rcases hp with hp | hp
    · obtain ⟨nm, _, hmem⟩ := List.mem_map.mp hp
      simp [← hmem]
    · have := ih (i + 1) (fun r hr => hpre r (List.mem_cons_of_mem mr hr)) p hp
      simp only [List.length_cons]
      omega

/-- Shape of the evaluator's result: either a clean match or
`matched = false`. -/
lemma discoverLoop_shape (l : List (MatchRule E)) :
    discoverLoop l = (true, none) ∨ (discoverLoop l).1 = false := by
  induction l with
  | nil => right; rfl
  | cons mr rest ih =>
    cases hr : matchRules (allRules mr) with
    | mk b oe =>
      match b, oe with
      | b, some e => right; simp [discoverLoop, hr]
      | true, none => left; simp [discoverLoop, hr]
      | false, none =>
        rcases ih with h | h
        · left; simpa [discoverLoop, hr] using h
        · right; simpa [discoverLoop, hr] using h

/-- If every present slot matches cleanly, `matchRules` succeeds. -/
lemma matchRules_of_all_true (rs : List (Option (RuleOutcome E)))
    (h : ∀ r ∈ rs, ∀ b oe, r = some (b, oe) → b = true ∧ oe = none) :
    matchRules rs = (true, none) := by
  induction rs with
  | nil => rfl
  | cons hd tl ih =>
    have ih0 := ih (fun r hr b oe he => h r (List.mem_cons_of_mem hd hr) b oe he)
    rcases hd with _ | ⟨b, oe⟩
    · simpa [matchRules] using ih0
    · obtain ⟨hb, hoe⟩ :=
        h (some (b, oe)) (List.mem_cons_self (some (b, oe)) tl) b oe rfl
      subst hb hoe
      simpa [matchRules] using ih0

/-- If `matchRules` succeeds, every present slot matched cleanly. -/
lemma matchRules_true_elim (rs : List (Option (RuleOutcome E)))
    (h : matchRules rs = (true, none)) :
    ∀ r ∈ rs, r = none ∨ r = some (true, none) := by
  induction rs with
  | nil => intro r hr; cases hr
  | cons hd tl ih =>
    have htl : matchRules tl = (true, none) := by
      rcases hd with _ | ⟨_ | _, _ | e⟩
      · simpa [matchRules] using h
      · simp [matchRules] at h
      · simp [matchRules] at h
      · simpa [matchRules] using h
      · simp [matchRules] at h
    intro r hr
    rcases List.mem_cons.mp hr with hr0 | hr0
    · subst hr0
      rcases r with _ | ⟨_ | _, _ | e⟩
      · left; rfl
      · simp [matchRules] at h
      · simp [matchRules] at h
      · right; rfl
      · simp [matchRules] at h
    · exact ih htl r hr0

/-- With no erroring present slot, `matchRules` returns a clean verdict. -/
lemma matchRules_no_error (rs : List (Option (RuleOutcome E)))
    (h : ∀ r ∈ rs, ∀ b oe, r = some (b, oe) → oe = none) :
    matchRules rs = (true, none) ∨ matchRules rs = (false, none) := by
  induction rs with
  | nil => left; rfl
  | cons hd tl ih =>
    have ih0 := ih (fun r hr b oe he => h r (List.mem_cons_of_mem hd hr) b oe he)
    rcases hd with _ | ⟨b, oe⟩
    · simpa [matchRules] using ih0
    · have hoe : oe = none :=
        h (some (b, oe)) (List.mem_cons_self (some (b, oe)) tl) b oe rfl
      subst hoe
      rcases b with _ | _
      · right; simp [matchRules]
      · simpa [matchRules] using ih0

/-- Absent and cleanly matching slots at the front of the slice are
walked through, contributing their present names to the trace. -/
lemma matchRulesT_skip_ok (pre rest : List (SlotName × Option (RuleOutcome E)))
    (hpre : ∀ p ∈ pre, p.2 = none ∨ p.2 = some (true, none)) :
    matchRulesT (pre ++ rest) =
      ((matchRulesT rest).1, presentNames pre ++ (matchRulesT rest).2) := by
  induction pre with
  | nil => simp [presentNames]
  | cons hd tl ih =>
    have ih0 := ih (fun p hp => hpre p (List.mem_cons_of_mem hd hp))
    obtain ⟨nm, o⟩ := hd
    rcases hpre (nm, o) (List.mem_cons_self (nm, o) tl) with ho | ho <;>
      simp only at ho <;> subst ho
    · simpa [matchRulesT, presentNames] using ih0
    · simp [matchRulesT, presentNames, ih0]

/-- Folding the map over an appended list composes. -/
lemma discoverAll_append (m : Features) (l1 l2 : List (FeatureSpec E)) :
    discoverAll m (l1 ++ l2) = discoverAll (discoverAll m l1) l2 := by
  induction l1 generalizing m with
  | nil => rfl
  | cons f rest ih => simp [discoverAll, ih]

/-- A specification that does not cleanly match leaves the map
unchanged. -/
lemma discoverStep_no_match (m : Features) (f : FeatureSpec E)
    (h : discoverFeature f ≠ (true, none)) : discoverStep m f = m := by
  unfold discoverStep
  rcases hr : discoverFeature f with ⟨_ | _, _ | e⟩
  · rfl
  · rfl
  · exact absurd hr h
  · rfl

/-- If no specification of a list cleanly matches under a given name,
the lookup at that name is unchanged by the fold. -/
lemma discoverAll_lookup_unchanged (n : String) (l : List (FeatureSpec E))
    (h : ∀ s ∈ l, s.Name = n → discoverFeature s ≠ (true, none)) :
    ∀ m : Features, discoverAll m l n = m n := by
  induction l with
  | nil => intro m; rfl
  | cons f rest ih =>
    intro m
    have step : discoverStep m f n = m n := by
      by_cases hn : f.Name = n
      · rw [discoverStep_no_match m f (h f (List.mem_cons_self f rest) hn)]
      · unfold discoverStep
        rcases hr : discoverFeature f with ⟨_ | _, _ | e⟩
        · rfl
        · rfl
        · simp only [setFeature]
          rw [if_neg (fun he => hn he.symm)]
        · rfl
    have ih0 := ih (fun s hs => h s (List.mem_cons_of_mem f hs))
    simp [discoverAll, ih0, step]

end Lemmas

section SampleData

/-- Sample rule-set whose single present slot errors (error code 7). -/
def rsErr : MatchRule Nat :=
  ⟨some (false, some 7), none, none, none, none, none⟩

/-- Sample rule-set whose single present slot matches cleanly. -/
def rsOk : MatchRule Nat :=
  ⟨none, some (true, none), none, none, none, none⟩

/-- Sample rule-set with a clean non-matching slot. -/
def rsNo : MatchRule Nat :=
  ⟨none, none, some (false, none), none, none, none⟩

/-- Sample rule-set with all six slots absent. -/
def rsNone : MatchRule Nat :=
  ⟨none, none, none, none, none, none⟩

/-- Sample rule-set where the non-matching second slot masks the erroring
fifth slot. -/
def rsMask : MatchRule Nat :=
  ⟨some (true, none), some (false, none), none, none, some (true, some 3), none⟩

end SampleData

section Claims

variable {E : Type}

/-- C1: during evaluation of a single feature specification, a rule-set
whose evaluation fails with an error aborts the whole specification: the
error is returned with matched=false, and no rule slot of any later
rule-set in `matchOn` is ever invoked. -/
theorem c1_fail_fast_on_error (n : String) (v : Option String)
    (pre : List (MatchRule E)) (RS : MatchRule E) (rest : List (MatchRule E))
    (e : E)
    (hpre : ∀ r ∈ pre, matchRules (allRules r) = (false, none))
    (hRS : (matchRules (allRules RS)).2 = some e) :
    discoverFeature ⟨n, v, pre ++ RS :: rest⟩ = (false, some e)
    ∧ ∀ p ∈ (discoverFeatureT ⟨n, v, pre ++ RS :: rest⟩).2, p.1 ≤ pre.length := by
  constructor
  · show discoverLoop (pre ++ RS :: rest) = (false, some e)
    rw [discoverLoop_skip pre _ hpre]
    rcases hm : matchRules (allRules RS) with ⟨b, oe⟩
    rw [hm] at hRS
    simp only at hRS
    subst hRS
    simp [discoverLoop, hm]
  · intro p hp
    have hne : matchRules (allRules RS) ≠ (false, none) := by
      intro hc
      rw [hc] at hRS
      exact Option.noConfusion hRS
    have := discoverLoopT_trace_bound 0 pre RS rest hpre hne p hp
    simpa using this

/-- C1 witness: the concrete instance matchOn = [RS1(errors), RS2(matches)]
returns the error and touches only rule-set 0. -/
theorem c1_witness :
    discoverFeature (⟨"feat", none, [rsErr, rsOk]⟩ : FeatureSpec Nat)
        = (false, some 7)
    ∧ ∀ p ∈ (discoverFeatureT
        (⟨"feat", none, [rsErr, rsOk]⟩ : FeatureSpec Nat)).2, p.1 ≤ 0 := by
  have h := c1_fail_fast_on_error "feat" none [] rsErr [rsOk] 7
    (by decide) (by decide)
  simpa using h

/-- C2: the aggregation never fails (nil error) and a specification whose
evaluation errors contributes nothing: the batch result equals the result
with that specification removed. -/
theorem c2_error_containment (staticCfg userCfg dirCfg : List (FeatureSpec E)) :
    (Discover staticCfg userCfg dirCfg).2 = none
    ∧ (∀ (base : Features) (s : FeatureSpec E),
        (discoverFeature s).2 ≠ none → discoverStep base s = base)
    ∧ ∀ (base : Features) (l1 l2 : List (FeatureSpec E)) (s : FeatureSpec E),
        (discoverFeature s).2 ≠ none →
        discoverAll base (l1 ++ s :: l2) = discoverAll base (l1 ++ l2) := by
  refine ⟨rfl, ?_, ?_⟩
  · intro base s hs
    apply discoverStep_no_match
    intro hc
    rw [hc] at hs
    exact hs rfl
  · intro base l1 l2 s hs
    have hstep : ∀ m : Features, discoverStep m s = m := fun m =>
      discoverStep_no_match m s (fun hc => by rw [hc] at hs; exact hs rfl)
    rw [discoverAll_append, discoverAll_append]
    simp only [discoverAll, hstep]

/-- C2 witness: with S1 erroring and S2 matching, the error is contained,
Discover reports a nil error, and the map still holds S2's value. -/
theorem c2_witness :
    (Discover ([] : List (FeatureSpec Nat))
        [⟨"s1", none, [rsErr]⟩, ⟨"s2", none, [rsOk]⟩] []).2 = none
    ∧ discoverAll emptyFeatures
        ([] ++ (⟨"s1", none, [rsErr]⟩ : FeatureSpec Nat) :: [⟨"s2", none, [rsOk]⟩])
      = discoverAll emptyFeatures ([] ++ [⟨"s2", none, [rsOk]⟩])
    ∧ (Discover ([] : List (FeatureSpec Nat))
        [⟨"s1", none, [rsErr]⟩, ⟨"s2", none, [rsOk]⟩] []).1 "s2"
      = some (FeatureValue.boolVal true) := by
  refine ⟨(c2_error_containment [] [⟨"s1", none, [rsErr]⟩, ⟨"s2", none, [rsOk]⟩] []).1,
    (c2_error_containment [] [⟨"s1", none, [rsErr]⟩, ⟨"s2", none, [rsOk]⟩] []).2.2
      emptyFeatures [] [⟨"s2", none, [rsOk]⟩] ⟨"s1", none, [rsErr]⟩ (by decide), ?_⟩
  rfl

/-- C3: when no present slot of a rule-set errors, the rule-set matches
iff every present slot matched; the verdict is always clean; and a
rule-set with all slots absent vacuously matches. -/
theorem c3_and_correctness (m : MatchRule E)
    (hnoerr : ∀ r ∈ allRules m, ∀ o ∈ r, o.2 = (none : Option E)) :
    (matchRules (allRules m) = (true, none) ↔
      ∀ r ∈ allRules m, ∀ o ∈ r, o.1 = true)
    ∧ (matchRules (allRules m) = (true, none)
        ∨ matchRules (allRules m) = (false, none))
    ∧ ((∀ r ∈ allRules m, r = none) → matchRules (allRules m) = (true, none)) := by
  have hnoerr2 : ∀ r ∈ allRules m, ∀ b oe, r = some (b, oe) → oe = none := by
    intro r hr b oe he
    exact hnoerr r hr (b, oe) (by rw [he]; exact rfl)
  refine ⟨⟨?_, ?_⟩, matchRules_no_error _ hnoerr2, ?_⟩
  · intro h r hr o ho
    rcases matchRules_true_elim _ h r hr with h0 | h0
    · rw [h0] at ho
      cases ho
    · have : some o = some ((true : Bool), (none : Option E)) := by
        rw [← ho, ← h0]
      have : o = ((true : Bool), (none : Option E)) := Option.some.inj this
      rw [this]
  · intro h
    apply matchRules_of_all_true
    intro r hr b oe he
    have hmem : (b, oe) ∈ r := by rw [he]; exact rfl
    exact ⟨h r hr (b, oe) hmem, hnoerr r hr (b, oe) hmem⟩
  · intro habs
    apply matchRules_of_all_true
    intro r hr b oe he
    rw [habs r hr] at he
    cases he

/-- C3 witness: applying the AND characterization at concrete rule-sets:
a present matching slot yields a match, and the all-absent rule-set
vacuously matches. -/
theorem c3_witness :
    matchRules (allRules rsOk) = (true, none)
    ∧ matchRules (allRules rsNone) = (true, none) :=
  ⟨(c3_and_correctness rsOk (by decide)).1.mpr (by decide),
   (c3_and_correctness rsNone (by decide)).2.2 (by decide)⟩

/-- C4: rule-sets are tried in `matchOn` order; after any number of
cleanly non-matching rule-sets, the first fully matching rule-set makes
the specification report matched=true with nil error, and no slot of any
later rule-set is ever invoked. -/
theorem c4_or_short_circuit (n : String) (v : Option String)
    (pre : List (MatchRule E)) (RS : MatchRule E) (rest : List (MatchRule E))
    (hpre : ∀ r ∈ pre, matchRules (allRules r) = (false, none))
    (hRS : matchRules (allRules RS) = (true, none)) :
    discoverFeature ⟨n, v, pre ++ RS :: rest⟩ = (true, none)
    ∧ ∀ p ∈ (discoverFeatureT ⟨n, v, pre ++ RS :: rest⟩).2, p.1 ≤ pre.length := by
  constructor
  · show discoverLoop (pre ++ RS :: rest) = (true, none)
    rw [discoverLoop_skip pre _ hpre]
    simp [discoverLoop, hRS]
  · intro p hp
    have hne : matchRules (allRules RS) ≠ (false, none) := by
      rw [hRS]
      simp
    have := discoverLoopT_trace_bound 0 pre RS rest hpre hne p hp
    simpa using this

/-- C4 witness: matchOn = [RS1(matches), RS2(errors)] reports matched=true
with nil error and touches only rule-set 0. -/
theorem c4_witness :
    discoverFeature (⟨"feat", none, [rsOk, rsErr]⟩ : FeatureSpec Nat)
        = (true, none)
    ∧ ∀ p ∈ (discoverFeatureT
        (⟨"feat", none, [rsOk, rsErr]⟩ : FeatureSpec Nat)).2, p.1 ≤ 0 := by
  have h := c4_or_short_circuit "feat" none [] rsOk [rsErr] (by decide) (by decide)
  simpa using h

/-- C5: every invocation of the per-specification evaluator yields exactly
one of: matched with nil error, unmatched with nil error, or unmatched
with an error; matched=true never comes with a non-nil error. -/
theorem c5_return_contract (f : FeatureSpec E) :
    (discoverFeature f = (true, none) ∨ discoverFeature f = (false, none)
      ∨ ∃ e, discoverFeature f = (false, some e))
    ∧ ∀ e, discoverFeature f ≠ (true, some e) := by
  have hs : discoverFeature f = (true, none) ∨ (discoverFeature f).1 = false :=
    discoverLoop_shape f.MatchOn
  constructor
  · rcases hr : discoverFeature f with ⟨_ | _, _ | e⟩
    · right; left; rfl
    · right; right; exact ⟨e, rfl⟩
    · left; rfl
    · rw [hr] at hs
      simp at hs
  · intro e hc
    rw [hc] at hs
    simp at hs

/-- C6: the map entry under a name is the value of the last matching
specification with that name in the merged sequence: a matching
specification's insertion overwrites any earlier entry, and later
specifications that do not cleanly match under that name leave it
untouched. -/
theorem c6_overwrite_by_order (base : Features) (l1 l2 : List (FeatureSpec E))
    (B : FeatureSpec E) (n : String)
    (hB : discoverFeature B = (true, none)) (hn : B.Name = n)
    (hl2 : ∀ s ∈ l2, s.Name = n → discoverFeature s ≠ (true, none)) :
    discoverAll base (l1 ++ B :: l2) n = some (specValue B) := by
  subst hn
  rw [discoverAll_append]
  simp only [discoverAll]
  rw [discoverAll_lookup_unchanged B.Name l2 hl2]
  unfold discoverStep
  rw [hB]
  simp [setFeature]

/-- C6 witness: two specifications named "feat", both matching, merged in
order A (value "a") then B (value "b"): the final entry is "b". -/
theorem c6_witness :
    discoverAll emptyFeatures
        ([⟨"feat", some "a", [rsNone]⟩] ++
          (⟨"feat", some "b", [rsNone]⟩ : FeatureSpec Nat) :: []) "feat"
      = some (FeatureValue.strVal "b") :=
  c6_overwrite_by_order emptyFeatures [⟨"feat", some "a", [rsNone]⟩] []
    ⟨"feat", some "b", [rsNone]⟩ "feat" (by decide) rfl (by decide)

/-- C7: a matching specification contributes its literal value when set
and boolean true otherwise; a specification that does not report
matched=true contributes no map entry. -/
theorem c7_value_derivation (m : Features) (f : FeatureSpec E) :
    (discoverFeature f = (true, none) →
      discoverStep m f f.Name = some (match f.Value with
        | some s => FeatureValue.strVal s
        | none => FeatureValue.boolVal true))
    ∧ ((discoverFeature f).1 = false → discoverStep m f = m) := by
  constructor
  · intro h
    unfold discoverStep
    rw [h]
    rcases hv : f.Value with _ | s <;> simp [setFeature, specValue, hv]
  · intro h
    apply discoverStep_no_match
    intro hc
    rw [hc] at h
    simp at h

/-- C7 witness: a matching specification with value "x" contributes the
string "x"; a matching specification with no value contributes boolean
true; a non-matching specification contributes nothing. -/
theorem c7_witness :
    discoverStep emptyFeatures
        (⟨"feat", some "x", [rsNone]⟩ : FeatureSpec Nat) "feat"
      = some (FeatureValue.strVal "x")
    ∧ discoverStep emptyFeatures
        (⟨"feat", none, [rsNone]⟩ : FeatureSpec Nat) "feat"
      = some (FeatureValue.boolVal true)
    ∧ discoverStep emptyFeatures
        (⟨"feat", some "x", [rsNo]⟩ : FeatureSpec Nat) = emptyFeatures := by
  refine ⟨?_, ?_, ?_⟩
  · exact (c7_value_derivation emptyFeatures ⟨"feat", some "x", [rsNone]⟩).1
      (by decide)
  · exact (c7_value_derivation emptyFeatures ⟨"feat", none, [rsNone]⟩).1
      (by decide)
  · exact (c7_value_derivation emptyFeatures ⟨"feat", some "x", [rsNo]⟩).2
      (by decide)

/-- C8: the sequence the aggregator evaluates is the concatenation
static ++ userConfig ++ directoryConfig, each source's internal order
preserved; equivalently the map is folded over the three lists in that
order. -/
theorem c8_merge_order (staticCfg userCfg dirCfg : List (FeatureSpec E)) :
    mergedConfig staticCfg userCfg dirCfg = staticCfg ++ userCfg ++ dirCfg
    ∧ Discover staticCfg userCfg dirCfg
        = (discoverAll
            (discoverAll (discoverAll emptyFeatures staticCfg) userCfg)
            dirCfg, none) := by
  constructor
  · rfl
  · unfold Discover mergedConfig
    rw [discoverAll_append, discoverAll_append]

/-- C9: a specification is reported unmatched with nil error when every
rule-set of its `matchOn` sequence evaluates to a clean non-match;
this includes the empty `matchOn` sequence. -/
theorem c9_exhausted_no_match (f : FeatureSpec E)
    (h : ∀ rs ∈ f.MatchOn, matchRules (allRules rs) = (false, none)) :
    discoverFeature f = (false, none) := by
  show discoverLoop f.MatchOn = (false, none)
  have h0 := discoverLoop_skip f.MatchOn [] h
  rw [List.append_nil] at h0
  exact h0

/-- C9 witness: a specification with empty matchOn, and one whose only
rule-set cleanly fails, both report (false, nil). -/
theorem c9_witness :
    discoverFeature (⟨"feat", none, []⟩ : FeatureSpec Nat) = (false, none)
    ∧ discoverFeature (⟨"feat", none, [rsNo]⟩ : FeatureSpec Nat) = (false, none) :=
  ⟨c9_exhausted_no_match ⟨"feat", none, []⟩ (by decide),
   c9_exhausted_no_match ⟨"feat", none, [rsNo]⟩ (by decide)⟩

/-- C10: within one rule-set the slots are laid out in the fixed order
PciID, UsbID, LoadedKMod, CpuID, Kconfig, Nodename; evaluation invokes
exactly the present slots up to and including the first non-matching one,
so an error a later present slot would raise is never surfaced: the
rule-set reports a clean non-match and the next alternative in `matchOn`
is tried. -/
theorem c10_slot_order_and_masking (m : MatchRule E)
    (pre post : List (SlotName × Option (RuleOutcome E))) (nm : SlotName)
    (hsplit : namedRules m = pre ++ (nm, some (false, (none : Option E))) :: post)
    (hpre : ∀ p ∈ pre, p.2 = none ∨ p.2 = some (true, none)) :
    (namedRules m).map Prod.fst
      = [SlotName.pciID, SlotName.usbID, SlotName.loadedKMod,
         SlotName.cpuID, SlotName.kconfig, SlotName.nodename]
    ∧ matchRulesT (namedRules m) = ((false, none), presentNames pre ++ [nm])
    ∧ ∀ (n : String) (v : Option String) (rest : List (MatchRule E)),
        discoverFeature ⟨n, v, m :: rest⟩ = discoverFeature ⟨n, v, rest⟩ := by
  have hT : matchRulesT (namedRules m) = ((false, none), presentNames pre ++ [nm]) := by
    rw [hsplit, matchRulesT_skip_ok pre _ hpre]
    simp [matchRulesT]
  refine ⟨rfl, hT, ?_⟩
  intro n v rest
  have hm : matchRules (allRules m) = (false, none) := by
    have h0 := matchRulesT_fst (namedRules m)
    rw [hT, namedRules_map_snd] at h0
    exact h0.symm
  show discoverLoop (m :: rest) = discoverLoop rest
  simp [discoverLoop, hm]

/-- C10 witness: in rsMask the matching PciID slot and the non-matching
UsbID slot are the only ones invoked; the erroring Kconfig slot is never
reached, the rule-set cleanly fails, and the next alternative is tried. -/
theorem c10_witness :
    matchRulesT (namedRules rsMask)
      = ((false, none), [SlotName.pciID, SlotName.usbID])
    ∧ discoverFeature (⟨"feat", none, [rsMask, rsOk]⟩ : FeatureSpec Nat)
        = discoverFeature (⟨"feat", none, [rsOk]⟩ : FeatureSpec Nat) := by
  have h := c10_slot_order_and_masking rsMask
    [(SlotName.pciID, some (true, none))]
    [(SlotName.loadedKMod, none), (SlotName.cpuID, none),
     (SlotName.kconfig, some (true, some 3)), (SlotName.nodename, none)]
    SlotName.usbID (by decide) (by decide)
  exact ⟨by simpa [presentNames] using h.2.1, h.2.2 "feat" none [rsOk]⟩

end Claims
